import Mathlib

/-!
Verification of the NESTiq frontend streaming client and render polling loop.

The development shallowly embeds two pieces of the repository:

* `streamProcure` from `src/frontend/src/api/client.ts`: the SSE decoder
  loop that buffers incoming text chunks, splits the buffer on newlines,
  parses `data: ` marker lines as JSON frames, dispatches the callbacks
  `onEvent` / `onDone` / `onError`, and handles the surrounding
  `try`/`catch` (HTTP failure before the loop, abort suppression).
  JavaScript strings are modelled as `List Char`; the byte-level
  `TextDecoder` with streaming mode makes byte chunking equivalent to
  text-level chunking, so chunks are `List Char` as well.  `JSON.parse`
  together with the property access `parsed.event` is a host builtin, not
  repository code, so it is a parameter: `parse : List Char → Option α`
  (`none` models a thrown parse error) and `ef : α → Option String`
  models reading the `event` property (`none` models `undefined`).

* the polling `useEffect` of `src/frontend/src/components/DesignViewer.tsx`
  and the callback handlers plus `stop` of the `AgentStream` component.
-/

/-- Result of one `reader.read()` resolution beyond a value chunk:
the transport reports end of stream (`done: true`), the pending read
rejects because the caller aborted, or it rejects with some other
runtime error. -/
inductive StreamEnd where
  | close
  | abort
  | failure (name msg : String)
deriving DecidableEq

/-- Callback invocations observable by the caller of `streamProcure`, in
order: `onEvent parsed`, `onDone ()`, `onError e` (recorded by message). -/
inductive Callback (α : Type) where
  | event : α → Callback α
  | done : Callback α
  | error : String → Callback α
deriving DecidableEq

/-- Outcome of the body of the `for (const line of lines)` loop on one
complete line: fall through to the next line, call `onEvent v`, or call
`onDone` and return from the whole function. -/
inductive LineAction (α : Type) where
  | skip
  | emit : α → LineAction α
  | finish
deriving DecidableEq

/-- The input to one invocation of `streamProcure`: either the initial
response fails (`!res.ok || !res.body`, carrying the HTTP status), or the
body delivers a list of text chunks followed by one of the `StreamEnd`
terminations. -/
inductive StreamInput where
  | httpError (status : Nat)
  | stream (chunks : List (List Char)) (ending : StreamEnd)

/-- A thrown JavaScript error as seen by the `catch` clause: its `name`
and its `message`. -/
structure JSErr where
  name : String
  msg : String
deriving DecidableEq

/-- The rejection produced by aborting a pending `reader.read()`; its
`name` is `"AbortError"`, which is all the `catch` clause inspects. -/
def abortErr : JSErr := ⟨"AbortError", "The operation was aborted"⟩

/-- The marker `"data: "` checked by `line.startsWith("data: ")`. -/
def dataMarker : List Char := 'd' :: 'a' :: 't' :: 'a' :: ':' :: ' ' :: []

/-- JavaScript `String.prototype.trim` on a character list: whitespace is
stripped from both ends. -/
def trimChars (l : List Char) : List Char :=
  ((l.dropWhile Char.isWhitespace).reverse.dropWhile Char.isWhitespace).reverse

/-- One step of `buffer.split("\n")` followed by `buffer = lines.pop()`:
returns the complete lines (all split segments but the last) and the new
buffer (the final segment, i.e. the text after the last newline). -/
def splitBuffer : List Char → List (List Char) × List Char
  | [] => ([], [])
  | c :: cs =>
    if c = '\n' then ([] :: (splitBuffer cs).1, (splitBuffer cs).2)
    else
      match (splitBuffer cs).1 with
      | [] => ([], c :: (splitBuffer cs).2)
      | l :: ls => ((c :: l) :: ls, (splitBuffer cs).2)

/-- The body of the per-line loop of `streamProcure` on one complete line
`l`: lines not starting with `data: ` are ignored, the payload after the
marker is trimmed, an empty payload is skipped (`if (!raw) continue`), a
payload `JSON.parse` rejects is skipped (`catch {}`), a parsed value whose
`event` property is `"done"` triggers `onDone(); return`, and any other
parsed value is passed to `onEvent`. -/
def processLine {α : Type} (parse : List Char → Option α) (ef : α → Option String)
    (l : List Char) : LineAction α :=
  if l.take 6 = dataMarker then
    let raw := trimChars (l.drop 6)
    if raw = [] then LineAction.skip
    else
      match parse raw with
      | none => LineAction.skip
      | some v => if ef v = some "done" then LineAction.finish else LineAction.emit v
  else LineAction.skip

/-- Run the per-line loop over a list of complete lines: returns the
callbacks issued and whether the loop returned early because a `done`
frame was parsed (in which case the remaining lines are abandoned). -/
def consumeLines {α : Type} (parse : List Char → Option α) (ef : α → Option String) :
    List (List Char) → List (Callback α) × Bool
  | [] => ([], false)
  | l :: ls =>
    match processLine parse ef l with
    | LineAction.skip => consumeLines parse ef ls
    | LineAction.emit v =>
      ((Callback.event v) :: (consumeLines parse ef ls).1, (consumeLines parse ef ls).2)
    | LineAction.finish => ([Callback.done], true)

/-- Callbacks and pending exception produced when the read loop runs out
of chunks: transport close breaks the loop and reaches `onDone()`; an
abort or a read failure makes `reader.read()` reject, so the trailing
`onDone()` is skipped and the error propagates to the `catch` clause. -/
def endPart (α : Type) : StreamEnd → List (Callback α) × Option JSErr
  | StreamEnd.close => ([Callback.done], none)
  | StreamEnd.abort => ([], some abortErr)
  | StreamEnd.failure n m => ([], some ⟨n, m⟩)

/-- The `while (true)` read loop of `streamProcure`, processing the given
chunks with the current buffer contents: each chunk is appended to the
buffer, complete lines are split off and consumed, and a parsed `done`
frame returns immediately (no pending exception, remaining chunks never
read). -/
def goChunks {α : Type} (parse : List Char → Option α) (ef : α → Option String)
    (ending : StreamEnd) :
    List (List Char) → List Char → List (Callback α) × Option JSErr
  | [], _ => endPart α ending
  | c :: cs, buf =>
    let p := splitBuffer (buf ++ c)
    let r := consumeLines parse ef p.1
    if r.2 then (r.1, none)
    else
      ((r.1 ++ (goChunks parse ef ending cs p.2).1), (goChunks parse ef ending cs p.2).2)

/-- The `catch` clause of `streamProcure`: a pending exception named
`"AbortError"` is swallowed, any other one is reported through `onError`
with its message. -/
def handleCatch {α : Type} : List (Callback α) × Option JSErr → List (Callback α)
  | (out, none) => out
  | (out, some e) => if e.name = "AbortError" then out else out ++ [Callback.error e.msg]

/-- Top level of `streamProcure`: a non-2xx or bodyless initial response
throws `Error("SSE error: " + status)` before the loop; otherwise the read
loop runs starting from the empty buffer; the `catch` clause wraps both. -/
def streamProcure {α : Type} (parse : List Char → Option α) (ef : α → Option String) :
    StreamInput → List (Callback α)
  | StreamInput.httpError status =>
    handleCatch ([], some ⟨"Error", "SSE error: " ++ toString status⟩)
  | StreamInput.stream chunks ending =>
    handleCatch (goChunks parse ef ending chunks [])

/-- One-shot characterisation used in proofs: the callbacks and pending
exception obtained from the whole stream text at once. -/
def runOnce {α : Type} (parse : List Char → Option α) (ef : α → Option String)
    (ending : StreamEnd) (text : List Char) : List (Callback α) × Option JSErr :=
  let r := consumeLines parse ef (splitBuffer text).1
  if r.2 then (r.1, none)
  else (r.1 ++ (endPart α ending).1, (endPart α ending).2)

/-- A concrete stand-in for `JSON.parse` used to instantiate witness
statements: three recognised payloads, everything else a parse error. -/
def toyParse (l : List Char) : Option String :=
  if l = "TH".toList then some "thought"
  else if l = "AC".toList then some "action"
  else if l = "DONE".toList then some "done"
  else none

/-- The `event` property of a toy parsed value is the value itself. -/
def toyEf (s : String) : Option String := some s

/-- Convenience: the character list of a string literal. -/
def strL (s : String) : List Char := s.toList

/-- An entry of the `events` list kept by the `AgentStream` component: a
streamed event appended by the `onEvent` handler, or the synthetic
`{event: "error"}` entry appended by the `onError` handler. -/
inductive UIEntry (α : Type) where
  | ev : α → UIEntry α
  | errEntry : String → UIEntry α
deriving DecidableEq

/-- The React state of the `AgentStream` component: its `events`,
`running` and `done` state hooks. -/
structure AgentUI (α : Type) where
  events : List (UIEntry α)
  running : Bool
  done : Bool
deriving DecidableEq

/-- Component state right after `start` ran
`setEvents([]); setDone(false); setRunning(true)`. -/
def startState (α : Type) : AgentUI α := ⟨[], true, false⟩

/-- The three callbacks `AgentStream` hands to `streamProcure`: `onEvent`
appends the event, `onDone` clears `running` and sets `done`, `onError`
clears `running` and appends an error entry. -/
def applyCallback {α : Type} (s : AgentUI α) : Callback α → AgentUI α
  | Callback.event v => { s with events := s.events ++ [UIEntry.ev v] }
  | Callback.done => { s with running := false, done := true }
  | Callback.error msg =>
    { s with running := false, events := s.events ++ [UIEntry.errEntry msg] }

/-- Fold the decoder's callback trace into the component state. -/
def applyCallbacks {α : Type} (s : AgentUI α) (cs : List (Callback α)) : AgentUI α :=
  cs.foldl applyCallback s

/-- The `stop` handler of `AgentStream`: it aborts the controller and then
runs `setRunning(false)` itself. -/
def stopStream {α : Type} (s : AgentUI α) : AgentUI α := { s with running := false }

/-- Render job status as reported by `getRenderStatus` and stored in the
`renderJob` snapshot of `DesignViewer`. -/
inductive JobStatus where
  | pending
  | processing
  | done
  | failed
deriving DecidableEq

/-- The component state read by the polling `useEffect` of `DesignViewer`:
the latest `renderJob` snapshot (only its status matters; `none` before
any submission) and the `polling` flag. -/
structure ViewerState where
  renderJob : Option JobStatus
  polling : Bool
deriving DecidableEq

/-- The synchronous part of the polling `useEffect`: returns whether a
`getRenderStatus` timer was scheduled, together with the state after the
effect's own writes (`setPolling(false)` when the snapshot is terminal). -/
def pollEffect (s : ViewerState) : Bool × ViewerState :=
  if s.polling = false then (false, s)
  else
    match s.renderJob with
    | none => (false, s)
    | some st =>
      if st = JobStatus.done ∨ st = JobStatus.failed then (false, { s with polling := false })
      else (true, s)

/-- Result of one scheduled `getRenderStatus` call: a fresh snapshot, or a
rejection (whose `catch` runs `setPolling(false)`). -/
inductive PollResponse where
  | ok (st : JobStatus)
  | fetchFail
deriving DecidableEq

/-- The state update performed by the timer callback of the polling
effect when its `getRenderStatus` call resolves. -/
def applyResponse (s : ViewerState) : PollResponse → ViewerState
  | PollResponse.ok st => { s with renderJob := some st }
  | PollResponse.fetchFail => { s with polling := false }

/-- Number of `getRenderStatus` requests issued by the effect/timer loop
run against a list of poll responses (the list ending models component
unmount).  Each effect run schedules a timer only when `pollEffect` says
so; the timer consumes one response and the effect re-runs. -/
def runPoll : List PollResponse → ViewerState → Nat
  | [], _ => 0
  | r :: rs', s =>
    if (pollEffect s).1 then 1 + runPoll rs' (applyResponse (pollEffect s).2 r) else 0

/-! ### Buffer-splitting lemmas -/

/-- A text with no newline splits into no complete line and itself as the
residual buffer. -/
theorem splitBuffer_noNL : ∀ (a : List Char), '\n' ∉ a → splitBuffer a = ([], a)
  | [], _ => rfl
  | c :: cs, h => by
    have hc : ¬ c = '\n' := fun hh => h (by simp [hh])
    have ih := splitBuffer_noNL cs (fun hm => h (List.mem_cons_of_mem c hm))
    simp [splitBuffer, hc, ih]

/-- The residual buffer left by splitting never contains a newline. -/
theorem splitBuffer_res_noNL : ∀ (a : List Char), '\n' ∉ (splitBuffer a).2
  | [] => by simp [splitBuffer]
  | c :: cs => by
    have ih := splitBuffer_res_noNL cs
    by_cases hc : c = '\n'
    · simpa [splitBuffer, hc] using ih
    · rcases hs : (splitBuffer cs).1 with _ | ⟨l, ls⟩
      · have he : splitBuffer (c :: cs) = ([], c :: (splitBuffer cs).2) := by
          simp [splitBuffer, hc, hs]
        rw [he]
        intro hm
        rcases List.mem_cons.mp hm with h1 | h2
        · exact hc h1.symm
        · exact ih h2
      · have he : splitBuffer (c :: cs) = ((c :: l) :: ls, (splitBuffer cs).2) := by
          simp [splitBuffer, hc, hs]
        rw [he]; exact ih

/-- If splitting produced no complete line, the residual is the whole text. -/
theorem splitBuffer_fst_nil : ∀ (a : List Char), (splitBuffer a).1 = [] → (splitBuffer a).2 = a
  | [], _ => rfl
  | c :: cs, h => by
    by_cases hc : c = '\n'
    · exact absurd h (by simp [splitBuffer, hc])
    · rcases hs : (splitBuffer cs).1 with _ | ⟨l, ls⟩
      · have ih := splitBuffer_fst_nil cs hs
        simp [splitBuffer, hc, hs, ih]
      · exact absurd h (by simp [splitBuffer, hc, hs])

/-- Splitting a concatenation: the complete lines of `a` come first, and the
residual of `a` is prepended to `b` before the remaining split. -/
theorem splitBuffer_append : ∀ (a b : List Char),
    splitBuffer (a ++ b) =
      ((splitBuffer a).1 ++ (splitBuffer ((splitBuffer a).2 ++ b)).1,
       (splitBuffer ((splitBuffer a).2 ++ b)).2)
  | [], b => by simp [splitBuffer]
  | c :: a', b => by
    have ih := splitBuffer_append a' b
    by_cases hc : c = '\n'
    · simp [List.cons_append, splitBuffer, hc, ih]
    · rcases hs : (splitBuffer a').1 with _ | ⟨l, ls⟩
      · have h2 := splitBuffer_fst_nil a' hs
        simp [List.cons_append, splitBuffer, hc, hs, h2]
      · simp [List.cons_append, splitBuffer, hc, hs, ih]

/-- Splitting a single newline-terminated line followed by more text. -/
theorem splitBuffer_line : ∀ (l rest : List Char), '\n' ∉ l →
    splitBuffer (l ++ '\n' :: rest) = (l :: (splitBuffer rest).1, (splitBuffer rest).2)
  | [], rest, _ => by simp [splitBuffer]
  | c :: l', rest, h => by
    have hc : ¬ c = '\n' := fun hh => h (by simp [hh])
    have ih := splitBuffer_line l' rest (fun hm => h (List.mem_cons_of_mem c hm))
    simp [List.cons_append, splitBuffer, ih, hc]

/-! ### Line-consumption lemmas -/

/-- Consuming a concatenation of line lists: if the first part parsed a
`done` frame the second part is abandoned, otherwise outputs concatenate. -/
theorem consumeLines_append {α : Type} (parse : List Char → Option α)
    (ef : α → Option String) :
    ∀ (xs ys : List (List Char)),
      consumeLines parse ef (xs ++ ys) =
        if (consumeLines parse ef xs).2 then consumeLines parse ef xs
        else ((consumeLines parse ef xs).1 ++ (consumeLines parse ef ys).1,
              (consumeLines parse ef ys).2)
  | [], ys => by simp [consumeLines]
  | x :: xs, ys => by
    have ih := consumeLines_append parse ef xs ys
    cases hp : processLine parse ef x with
    | skip => simp [consumeLines, hp, ih]
    | emit v =>
      by_cases hs : (consumeLines parse ef xs).2 <;>
        simp [consumeLines, hp, ih, hs]
    | finish => simp [consumeLines, hp]

/-- The per-line loop never issues an `onError` callback. -/
theorem consumeLines_no_error {α : Type} (parse : List Char → Option α)
    (ef : α → Option String) :
    ∀ (ls : List (List Char)) (msg : String),
      Callback.error msg ∉ (consumeLines parse ef ls).1
  | [], _ => by simp [consumeLines]
  | l :: ls, msg => by
    have ih := consumeLines_no_error parse ef ls msg
    cases hp : processLine parse ef l <;> simp [consumeLines, hp, ih]

/-- If no `done` frame was parsed, no `onDone` callback was issued by the
per-line loop. -/
theorem consumeLines_no_done {α : Type} (parse : List Char → Option α)
    (ef : α → Option String) :
    ∀ (ls : List (List Char)), (consumeLines parse ef ls).2 = false →
      Callback.done ∉ (consumeLines parse ef ls).1
  | [], _ => by simp [consumeLines]
  | l :: ls, h => by
    cases hp : processLine parse ef l with
    | skip =>
      have h' : (consumeLines parse ef ls).2 = false := by
        simpa [consumeLines, hp] using h
      simpa [consumeLines, hp] using consumeLines_no_done parse ef ls h'
    | emit v =>
      have h' : (consumeLines parse ef ls).2 = false := by
        simpa [consumeLines, hp] using h
      have ih := consumeLines_no_done parse ef ls h'
      simp [consumeLines, hp, ih]
    | finish => exact absurd h (by simp [consumeLines, hp])

/-- If a `done` frame was parsed, the callbacks end with exactly one
`onDone` and contain no earlier one. -/
theorem consumeLines_done_shape {α : Type} (parse : List Char → Option α)
    (ef : α → Option String) :
    ∀ (ls : List (List Char)), (consumeLines parse ef ls).2 = true →
      ∃ es, (consumeLines parse ef ls).1 = es ++ [Callback.done] ∧ Callback.done ∉ es
  | [], h => absurd h (by simp [consumeLines])
  | l :: ls, h => by
    cases hp : processLine parse ef l with
    | skip =>
      have h' : (consumeLines parse ef ls).2 = true := by
        simpa [consumeLines, hp] using h
      obtain ⟨es, he, hne⟩ := consumeLines_done_shape parse ef ls h'
      exact ⟨es, by simpa [consumeLines, hp] using he, hne⟩
    | emit v =>
      have h' : (consumeLines parse ef ls).2 = true := by
        simpa [consumeLines, hp] using h
      obtain ⟨es, he, hne⟩ := consumeLines_done_shape parse ef ls h'
      refine ⟨Callback.event v :: es, ?_, ?_⟩
      · simp [consumeLines, hp, he]
      · simpa using hne
    | finish => exact ⟨[], by simp [consumeLines, hp], by simp⟩

/-- A line can only be turned into an `onEvent` call when the parsed
value's `event` property is not `"done"`. -/
theorem processLine_emit_ne_done {α : Type} (parse : List Char → Option α)
    (ef : α → Option String) (l : List Char) (v : α)
    (hp : processLine parse ef l = LineAction.emit v) : ef v ≠ some "done" := by
  intro hv
  unfold processLine at hp
  by_cases h1 : l.take 6 = dataMarker
  · simp only [h1, if_true] at hp
    by_cases h2 : trimChars (l.drop 6) = []
    · simp [h2] at hp
    · simp only [h2, if_false] at hp
      cases hparse : parse (trimChars (l.drop 6)) with
      | none => simp [hparse] at hp
      | some w =>
        simp only [hparse] at hp
        by_cases h3 : ef w = some "done"
        · simp [h3] at hp
        · simp only [h3, if_false] at hp
          cases hp
          exact h3 hv
  · simp [h1] at hp

/-- Every value passed to `onEvent` by the per-line loop has an `event`
property different from `"done"`. -/
theorem consumeLines_event_ne_done {α : Type} (parse : List Char → Option α)
    (ef : α → Option String) :
    ∀ (ls : List (List Char)) (v : α),
      Callback.event v ∈ (consumeLines parse ef ls).1 → ef v ≠ some "done"
  | [], v => by simp [consumeLines]
  | l :: ls, v => by
    intro hm
    cases hp : processLine parse ef l with
    | skip =>
      exact consumeLines_event_ne_done parse ef ls v (by simpa [consumeLines, hp] using hm)
    | emit w =>
      rw [show consumeLines parse ef (l :: ls)
            = ((Callback.event w) :: (consumeLines parse ef ls).1,
               (consumeLines parse ef ls).2) by simp [consumeLines, hp]] at hm
      rcases List.mem_cons.mp hm with h1 | h2
      · have hw : w = v := by
          cases h1
          rfl
        exact hw ▸ processLine_emit_ne_done parse ef l w hp
      · exact consumeLines_event_ne_done parse ef ls v h2
    | finish =>
      rw [show consumeLines parse ef (l :: ls) = ([Callback.done], true) by
            simp [consumeLines, hp]] at hm
      simp at hm

/-! ### One-shot characterisation of the read loop -/

/-- Processing a chunk list starting from a newline-free buffer gives the
same callbacks and pending exception as processing the buffer followed by
all chunks as one text.  This is the heart of chunking invariance. -/
theorem goChunks_runOnce {α : Type} (parse : List Char → Option α)
    (ef : α → Option String) (ending : StreamEnd) :
    ∀ (chunks : List (List Char)) (buf : List Char), '\n' ∉ buf →
      goChunks parse ef ending chunks buf = runOnce parse ef ending (buf ++ chunks.flatten)
  | [], buf, h => by
    simp [goChunks, runOnce, splitBuffer_noNL buf h, consumeLines]
  | c :: cs, buf, _ => by
    have hres := splitBuffer_res_noNL (buf ++ c)
    have ih := goChunks_runOnce parse ef ending cs ((splitBuffer (buf ++ c)).2) hres
    have hsb := splitBuffer_append (buf ++ c) cs.flatten
    rw [List.append_assoc] at hsb
    have hflat : buf ++ (c :: cs).flatten = buf ++ (c ++ cs.flatten) := by
      rw [List.flatten_cons]
    rw [hflat]
    by_cases hr : (consumeLines parse ef (splitBuffer (buf ++ c)).1).2
    · simp [goChunks, runOnce, hsb, consumeLines_append, hr]
    · by_cases hs : (consumeLines parse ef
          (splitBuffer ((splitBuffer (buf ++ c)).2 ++ cs.flatten)).1).2
      · simp [goChunks, runOnce, hsb, consumeLines_append, hr, hs, ih]
      · simp [goChunks, runOnce, hsb, consumeLines_append, hr, hs, ih, List.append_assoc]

/-- The observable behaviour of `streamProcure` on a stream input is the
caught one-shot run over the concatenated text. -/
theorem streamProcure_stream {α : Type} (parse : List Char → Option α)
    (ef : α → Option String) (chunks : List (List Char)) (ending : StreamEnd) :
    streamProcure parse ef (StreamInput.stream chunks ending)
      = handleCatch (runOnce parse ef ending chunks.flatten) := by
  show handleCatch (goChunks parse ef ending chunks []) = _
  rw [goChunks_runOnce parse ef ending chunks [] (by simp)]
  simp

/-! ### Claim theorems -/

/-- C1: feeding the decoder a logical event stream split at arbitrary
chunk boundaries (including mid-frame splits) produces exactly the same
ordered callback trace — events, completion and errors — as feeding the
concatenation as one chunk, for every parse function and every way the
transport ends. -/
theorem claim_c1_chunking_invariance {α : Type} (parse : List Char → Option α)
    (ef : α → Option String) (chunks : List (List Char)) (ending : StreamEnd) :
    streamProcure parse ef (StreamInput.stream chunks ending)
      = streamProcure parse ef (StreamInput.stream [chunks.flatten] ending) := by
  rw [streamProcure_stream, streamProcure_stream]
  simp

/-- Witness for C1 at a concrete mid-frame split. -/
theorem claim_c1_witness :
    streamProcure toyParse toyEf
        (StreamInput.stream [strL "da", strL "ta: TH\nda", strL "ta: AC\n"] StreamEnd.close)
      = streamProcure toyParse toyEf
        (StreamInput.stream [List.flatten [strL "da", strL "ta: TH\nda", strL "ta: AC\n"]]
          StreamEnd.close) :=
  claim_c1_chunking_invariance toyParse toyEf _ _

/-- C2: as soon as a `done` frame is parsed the decoder calls `onDone`
exactly once, as the last callback, and nothing after the `done` frame —
neither later bytes nor the way the transport ends — influences the
callback trace. -/
theorem claim_c2_done_stops {α : Type} (parse : List Char → Option α)
    (ef : α → Option String) (before dl after after' : List Char)
    (ending ending' : StreamEnd)
    (hd : processLine parse ef ((splitBuffer before).2 ++ dl) = LineAction.finish)
    (hnl : '\n' ∉ dl) :
    streamProcure parse ef (StreamInput.stream [before ++ dl ++ '\n' :: after] ending)
      = streamProcure parse ef (StreamInput.stream [before ++ dl ++ '\n' :: after'] ending')
    ∧ ∃ es, streamProcure parse ef (StreamInput.stream [before ++ dl ++ '\n' :: after] ending)
        = es ++ [Callback.done] ∧ Callback.done ∉ es := by
  have key : ∀ (aft : List Char) (e : StreamEnd),
      streamProcure parse ef (StreamInput.stream [before ++ dl ++ '\n' :: aft] e)
        = (if (consumeLines parse ef (splitBuffer before).1).2 then
             (consumeLines parse ef (splitBuffer before).1).1
           else (consumeLines parse ef (splitBuffer before).1).1 ++ [Callback.done]) := by
    intro aft e
    have hrb : '\n' ∉ (splitBuffer before).2 ++ dl := by
      intro hm
      rcases List.mem_append.mp hm with hA | hB
      · exact splitBuffer_res_noNL before hA
      · exact hnl hB
    have hline : splitBuffer ((splitBuffer before).2 ++ (dl ++ '\n' :: aft))
        = (((splitBuffer before).2 ++ dl) :: (splitBuffer aft).1, (splitBuffer aft).2) := by
      rw [← List.append_assoc]
      exact splitBuffer_line _ aft hrb
    have hsb := splitBuffer_append before (dl ++ '\n' :: aft)
    rw [hline] at hsb
    rw [streamProcure_stream]
    by_cases h1 : (consumeLines parse ef (splitBuffer before).1).2
    · simp [runOnce, hsb, consumeLines_append, h1, hd, consumeLines, handleCatch]
    · simp [runOnce, hsb, consumeLines_append, h1, hd, consumeLines, handleCatch]
  refine ⟨(key after ending).trans (key after' ending').symm, ?_⟩
  rw [key after ending]
  by_cases h1 : (consumeLines parse ef (splitBuffer before).1).2
  · obtain ⟨es, he, hne⟩ := consumeLines_done_shape parse ef _ h1
    exact ⟨es, by simp [h1, he], hne⟩
  · refine ⟨(consumeLines parse ef (splitBuffer before).1).1, by simp [h1], ?_⟩
    exact consumeLines_no_done parse ef _ (by simpa using h1)

/-- Witness for C2: after the concrete `done` frame, a valid frame and
garbage with different transport endings give the same trace, which ends
in a single completion. -/
theorem claim_c2_witness :
    streamProcure toyParse toyEf
        (StreamInput.stream [strL "data: TH\n" ++ strL "data: DONE" ++ '\n' :: strL "data: AC\n"]
          StreamEnd.close)
      = streamProcure toyParse toyEf
        (StreamInput.stream [strL "data: TH\n" ++ strL "data: DONE" ++ '\n' :: strL "junk"]
          StreamEnd.abort)
    ∧ ∃ es, streamProcure toyParse toyEf
          (StreamInput.stream [strL "data: TH\n" ++ strL "data: DONE" ++ '\n' :: strL "data: AC\n"]
            StreamEnd.close)
        = es ++ [Callback.done] ∧ Callback.done ∉ es :=
  claim_c2_done_stops toyParse toyEf (strL "data: TH\n") (strL "data: DONE")
    (strL "data: AC\n") (strL "junk") StreamEnd.close StreamEnd.abort
    (by decide) (by decide)

/-- C3: a line the parser rejects sitting between two valid frames is
silently discarded: the decoder emits exactly the two valid events in
order (followed by the close completion), and an aborted run likewise
contains only the two events — in particular no error callback arises
from the malformed line. -/
theorem claim_c3_malformed_line_discarded {α : Type} (parse : List Char → Option α)
    (ef : α → Option String) (l1 m l2 : List Char) (v1 v2 : α)
    (h1 : processLine parse ef l1 = LineAction.emit v1)
    (hm : processLine parse ef m = LineAction.skip)
    (h2 : processLine parse ef l2 = LineAction.emit v2)
    (hn1 : '\n' ∉ l1) (hnm : '\n' ∉ m) (hn2 : '\n' ∉ l2) :
    streamProcure parse ef
        (StreamInput.stream [l1 ++ '\n' :: (m ++ '\n' :: (l2 ++ '\n' :: []))] StreamEnd.close)
      = [Callback.event v1, Callback.event v2, Callback.done]
    ∧ streamProcure parse ef
        (StreamInput.stream [l1 ++ '\n' :: (m ++ '\n' :: (l2 ++ '\n' :: []))] StreamEnd.abort)
      = [Callback.event v1, Callback.event v2] := by
  have hsb : splitBuffer (l1 ++ '\n' :: (m ++ '\n' :: (l2 ++ '\n' :: [])))
      = ([l1, m, l2], []) := by
    rw [splitBuffer_line l1 _ hn1, splitBuffer_line m _ hnm, splitBuffer_line l2 _ hn2]
    simp [splitBuffer]
  constructor
  · rw [streamProcure_stream]
    simp [runOnce, hsb, consumeLines, h1, hm, h2, handleCatch, endPart]
  · rw [streamProcure_stream]
    simp [runOnce, hsb, consumeLines, h1, hm, h2, handleCatch, endPart, abortErr]

/-- Witness for C3 with a concrete malformed payload between two valid
frames. -/
theorem claim_c3_witness :
    streamProcure toyParse toyEf
        (StreamInput.stream
          [strL "data: TH" ++ '\n' :: (strL "data: OOPS" ++ '\n' :: (strL "data: AC" ++ '\n' :: []))]
          StreamEnd.close)
      = [Callback.event "thought", Callback.event "action", Callback.done]
    ∧ streamProcure toyParse toyEf
        (StreamInput.stream
          [strL "data: TH" ++ '\n' :: (strL "data: OOPS" ++ '\n' :: (strL "data: AC" ++ '\n' :: []))]
          StreamEnd.abort)
      = [Callback.event "thought", Callback.event "action"] :=
  claim_c3_malformed_line_discarded toyParse toyEf _ _ _ "thought" "action"
    (by decide) (by decide) (by decide) (by decide) (by decide) (by decide)

/-- C4: when the transport reports end of stream before any `done` frame
was parsed (and without an abort), the decoder still signals completion —
`onDone` is the final callback — and never calls the error handler. -/
theorem claim_c4_close_without_done {α : Type} (parse : List Char → Option α)
    (ef : α → Option String) (chunks : List (List Char))
    (hnd : (consumeLines parse ef (splitBuffer chunks.flatten).1).2 = false) :
    ∃ es, streamProcure parse ef (StreamInput.stream chunks StreamEnd.close)
        = es ++ [Callback.done]
      ∧ Callback.done ∉ es
      ∧ ∀ msg, Callback.error msg
          ∉ streamProcure parse ef (StreamInput.stream chunks StreamEnd.close) := by
  rw [streamProcure_stream]
  have hrun : handleCatch (runOnce parse ef StreamEnd.close chunks.flatten)
      = (consumeLines parse ef (splitBuffer chunks.flatten).1).1 ++ [Callback.done] := by
    simp [runOnce, hnd, endPart, handleCatch]
  rw [hrun]
  refine ⟨(consumeLines parse ef (splitBuffer chunks.flatten).1).1, rfl,
    consumeLines_no_done parse ef _ hnd, ?_⟩
  intro msg hmem
  rcases List.mem_append.mp hmem with hA | hB
  · exact consumeLines_no_error parse ef _ msg hA
  · simp at hB

/-- Witness for C4: a stream that ends mid-frame after one valid event. -/
theorem claim_c4_witness :
    ∃ es, streamProcure toyParse toyEf
        (StreamInput.stream [strL "data: TH\n", strL "data: AC"] StreamEnd.close)
        = es ++ [Callback.done]
      ∧ Callback.done ∉ es
      ∧ ∀ msg, Callback.error msg
          ∉ streamProcure toyParse toyEf
              (StreamInput.stream [strL "data: TH\n", strL "data: AC"] StreamEnd.close) :=
  claim_c4_close_without_done toyParse toyEf [strL "data: TH\n", strL "data: AC"] (by decide)

/-- Counterexample to C5 as stated: the caller aborts after receiving
exactly one `thought` event; the decoder then invokes no completion
callback at all — `onDone` is not among the delivered callbacks — so the
decoder does not signal completion on abort. -/
theorem claim_c5_counterexample :
    streamProcure toyParse toyEf (StreamInput.stream [strL "data: TH\n"] StreamEnd.abort)
      = [Callback.event "thought"]
    ∧ Callback.done
        ∉ streamProcure toyParse toyEf (StreamInput.stream [strL "data: TH\n"] StreamEnd.abort) :=
  ⟨by decide, by decide⟩

/-- C5 amended: on a caller abort the decoder delivers exactly the events
of the chunks read before the abort and nothing further — no completion
callback, no error callback; the session is marked finished by the caller
itself, whose `stop` handler clears the component's `running` flag. -/
theorem claim_c5_abort_behaviour {α : Type} (parse : List Char → Option α)
    (ef : α → Option String) (chunks : List (List Char))
    (hnd : (consumeLines parse ef (splitBuffer chunks.flatten).1).2 = false) :
    streamProcure parse ef (StreamInput.stream chunks StreamEnd.abort)
        = (consumeLines parse ef (splitBuffer chunks.flatten).1).1
    ∧ Callback.done ∉ streamProcure parse ef (StreamInput.stream chunks StreamEnd.abort)
    ∧ (∀ msg, Callback.error msg
        ∉ streamProcure parse ef (StreamInput.stream chunks StreamEnd.abort))
    ∧ (stopStream (applyCallbacks (startState α)
        (streamProcure parse ef (StreamInput.stream chunks StreamEnd.abort)))).running
        = false := by
  have habort : streamProcure parse ef (StreamInput.stream chunks StreamEnd.abort)
      = (consumeLines parse ef (splitBuffer chunks.flatten).1).1 := by
    rw [streamProcure_stream]
    simp [runOnce, hnd, endPart, handleCatch, abortErr]
  refine ⟨habort, ?_, ?_, rfl⟩
  · rw [habort]
    exact consumeLines_no_done parse ef _ hnd
  · intro msg
    rw [habort]
    exact consumeLines_no_error parse ef _ msg

/-- Witness for the amended C5 at the concrete scenario of the spec:
abort after a single `thought` event. -/
theorem claim_c5_witness :
    streamProcure toyParse toyEf (StreamInput.stream [strL "data: TH\n"] StreamEnd.abort)
        = (consumeLines toyParse toyEf (splitBuffer (List.flatten [strL "data: TH\n"])).1).1
    ∧ Callback.done
        ∉ streamProcure toyParse toyEf (StreamInput.stream [strL "data: TH\n"] StreamEnd.abort)
    ∧ (∀ msg, Callback.error msg
        ∉ streamProcure toyParse toyEf (StreamInput.stream [strL "data: TH\n"] StreamEnd.abort))
    ∧ (stopStream (applyCallbacks (startState String)
        (streamProcure toyParse toyEf
          (StreamInput.stream [strL "data: TH\n"] StreamEnd.abort)))).running = false :=
  claim_c5_abort_behaviour toyParse toyEf [strL "data: TH\n"] (by decide)

/-- The catch clause distributes over a fixed leading callback segment. -/
theorem handleCatch_append_left {α : Type} (pre out : List (Callback α)) (e? : Option JSErr) :
    handleCatch (pre ++ out, e?) = pre ++ handleCatch (out, e?) := by
  cases e? with
  | none => rfl
  | some e => by_cases he : e.name = "AbortError" <;> simp [handleCatch, he]

/-- C6: a caller-initiated abort delivers no error callback, and the
callbacks of the aborted run are an initial segment of the run that would
have continued with more chunks and any transport ending — the abort
itself adds no callback of its own. -/
theorem claim_c6_abort_initial_segment {α : Type} (parse : List Char → Option α)
    (ef : α → Option String) (chunks rest : List (List Char)) (ending : StreamEnd) :
    (∀ msg, Callback.error msg
        ∉ streamProcure parse ef (StreamInput.stream chunks StreamEnd.abort))
    ∧ ∃ t, streamProcure parse ef (StreamInput.stream (chunks ++ rest) ending)
        = streamProcure parse ef (StreamInput.stream chunks StreamEnd.abort) ++ t := by
  have habort : streamProcure parse ef (StreamInput.stream chunks StreamEnd.abort)
      = (consumeLines parse ef (splitBuffer chunks.flatten).1).1 := by
    rw [streamProcure_stream]
    by_cases hr : (consumeLines parse ef (splitBuffer chunks.flatten).1).2 <;>
      simp [runOnce, hr, handleCatch, endPart, abortErr]
  refine ⟨fun msg hmem => ?_, ?_⟩
  · rw [habort] at hmem
    exact consumeLines_no_error parse ef _ msg hmem
  · rw [streamProcure_stream, habort]
    have hsb := splitBuffer_append chunks.flatten rest.flatten
    have hfl : (chunks ++ rest).flatten = chunks.flatten ++ rest.flatten :=
      List.flatten_append chunks rest
    rw [hfl]
    by_cases hr : (consumeLines parse ef (splitBuffer chunks.flatten).1).2
    · refine ⟨[], ?_⟩
      simp [runOnce, hsb, consumeLines_append, hr, handleCatch]
    · refine ⟨(handleCatch (runOnce parse ef ending
        ((splitBuffer chunks.flatten).2 ++ rest.flatten))), ?_⟩
      have hshape : runOnce parse ef ending (chunks.flatten ++ rest.flatten)
          = ((consumeLines parse ef (splitBuffer chunks.flatten).1).1
              ++ (runOnce parse ef ending ((splitBuffer chunks.flatten).2 ++ rest.flatten)).1,
             (runOnce parse ef ending ((splitBuffer chunks.flatten).2 ++ rest.flatten)).2) := by
        by_cases hs : (consumeLines parse ef
            (splitBuffer ((splitBuffer chunks.flatten).2 ++ rest.flatten)).1).2 <;>
          simp [runOnce, hsb, consumeLines_append, hr, hs, List.append_assoc]
      rw [hshape]
      exact handleCatch_append_left _ _ _

/-- Witness for C6: abort after one full frame versus the continued run. -/
theorem claim_c6_witness :
    (∀ msg, Callback.error msg
        ∉ streamProcure toyParse toyEf (StreamInput.stream [strL "data: TH\n"] StreamEnd.abort))
    ∧ ∃ t, streamProcure toyParse toyEf
          (StreamInput.stream ([strL "data: TH\n"] ++ [strL "data: AC\n"]) StreamEnd.close)
        = streamProcure toyParse toyEf
            (StreamInput.stream [strL "data: TH\n"] StreamEnd.abort) ++ t :=
  claim_c6_abort_initial_segment toyParse toyEf [strL "data: TH\n"] [strL "data: AC\n"]
    StreamEnd.close

/-- C7: a non-2xx (or bodyless) initial response is a hard failure before
any frame is read: the error handler fires exactly once with an error
carrying the status, and no event or completion callback is ever
delivered. -/
theorem claim_c7_http_error {α : Type} (parse : List Char → Option α)
    (ef : α → Option String) (status : Nat) :
    streamProcure parse ef (StreamInput.httpError status)
        = [Callback.error ("SSE error: " ++ toString status)]
    ∧ (∀ v, Callback.event v ∉ streamProcure parse ef (StreamInput.httpError status))
    ∧ Callback.done ∉ streamProcure parse ef (StreamInput.httpError status) := by
  have h : streamProcure parse ef (StreamInput.httpError status)
      = [Callback.error ("SSE error: " ++ toString status)] := by
    simp [streamProcure, handleCatch]
  refine ⟨h, fun v hv => ?_, ?_⟩
  · rw [h] at hv
    simp at hv
  · rw [h]
    simp

/-- Witness for C7 at status 404. -/
theorem claim_c7_witness :
    streamProcure toyParse toyEf (StreamInput.httpError 404)
        = [Callback.error ("SSE error: " ++ toString 404)]
    ∧ (∀ v, Callback.event v ∉ streamProcure toyParse toyEf (StreamInput.httpError 404))
    ∧ Callback.done ∉ streamProcure toyParse toyEf (StreamInput.httpError 404) :=
  claim_c7_http_error toyParse toyEf 404

/-- C8: inside the active polling loop (polling flag set, a job snapshot
present) a new `getRenderStatus` poll is scheduled exactly when the latest
snapshot is `pending` or `processing`; once a terminal `done` or `failed`
snapshot is the latest, no further status request is ever issued, whatever
responses might still arrive. -/
theorem claim_c8_poll_scheduling (st : JobStatus) (rs : List PollResponse) :
    ((pollEffect ⟨some st, true⟩).1 = true
        ↔ (st = JobStatus.pending ∨ st = JobStatus.processing))
    ∧ ((st = JobStatus.done ∨ st = JobStatus.failed) →
        ∀ (b : Bool), runPoll rs ⟨some st, b⟩ = 0) := by
  constructor
  · cases st <;> simp [pollEffect]
  · intro ht b
    cases rs with
    | nil => simp [runPoll]
    | cons r rs' =>
      have hz : (pollEffect ⟨some st, b⟩).1 = false := by
        rcases ht with h | h <;> subst h <;> cases b <;> simp [pollEffect]
      simp [runPoll, hz]

/-- Witness for C8: a terminal `done` snapshot schedules nothing and
issues no request against a pending response queue. -/
theorem claim_c8_witness :
    ((pollEffect ⟨some JobStatus.done, true⟩).1 = true
        ↔ (JobStatus.done = JobStatus.pending ∨ JobStatus.done = JobStatus.processing))
    ∧ runPoll [PollResponse.ok JobStatus.pending, PollResponse.fetchFail]
        ⟨some JobStatus.done, true⟩ = 0 :=
  ⟨(claim_c8_poll_scheduling JobStatus.done
      [PollResponse.ok JobStatus.pending, PollResponse.fetchFail]).1,
   (claim_c8_poll_scheduling JobStatus.done
      [PollResponse.ok JobStatus.pending, PollResponse.fetchFail]).2 (Or.inl rfl) true⟩

/-- C9: the `done` frame is never delivered through `onEvent`: every value
passed to `onEvent` by any run of `streamProcure` has an `event` property
different from `"done"`. -/
theorem claim_c9_done_never_an_event {α : Type} (parse : List Char → Option α)
    (ef : α → Option String) (input : StreamInput) (v : α)
    (hmem : Callback.event v ∈ streamProcure parse ef input) : ef v ≠ some "done" := by
  cases input with
  | httpError status =>
    simp [streamProcure, handleCatch] at hmem
  | stream chunks ending =>
    rw [streamProcure_stream] at hmem
    by_cases hr : (consumeLines parse ef (splitBuffer chunks.flatten).1).2
    · rw [show handleCatch (runOnce parse ef ending chunks.flatten)
          = (consumeLines parse ef (splitBuffer chunks.flatten).1).1 by
            simp [runOnce, hr, handleCatch]] at hmem
      exact consumeLines_event_ne_done parse ef _ v hmem
    · cases ending with
      | close =>
        rw [show handleCatch (runOnce parse ef StreamEnd.close chunks.flatten)
            = (consumeLines parse ef (splitBuffer chunks.flatten).1).1 ++ [Callback.done] by
              simp [runOnce, hr, handleCatch, endPart]] at hmem
        rcases List.mem_append.mp hmem with hA | hB
        · exact consumeLines_event_ne_done parse ef _ v hA
        · simp at hB
      | abort =>
        rw [show handleCatch (runOnce parse ef StreamEnd.abort chunks.flatten)
            = (consumeLines parse ef (splitBuffer chunks.flatten).1).1 by
              simp [runOnce, hr, handleCatch, endPart, abortErr]] at hmem
        exact consumeLines_event_ne_done parse ef _ v hmem
      | failure n m =>
        by_cases hn : n = "AbortError"
        · rw [show handleCatch (runOnce parse ef (StreamEnd.failure n m) chunks.flatten)
              = (consumeLines parse ef (splitBuffer chunks.flatten).1).1 by
                simp [runOnce, hr, handleCatch, endPart, hn]] at hmem
          exact consumeLines_event_ne_done parse ef _ v hmem
        · rw [show handleCatch (runOnce parse ef (StreamEnd.failure n m) chunks.flatten)
              = (consumeLines parse ef (splitBuffer chunks.flatten).1).1
                  ++ [Callback.error m] by
                simp [runOnce, hr, handleCatch, endPart, hn]] at hmem
          rcases List.mem_append.mp hmem with hA | hB
          · exact consumeLines_event_ne_done parse ef _ v hA
          · simp at hB

/-- Witness for C9 at a delivered `thought` event. -/
theorem claim_c9_witness :
    Callback.event "thought"
        ∈ streamProcure toyParse toyEf (StreamInput.stream [strL "data: TH\n"] StreamEnd.close)
    ∧ toyEf "thought" ≠ some "done" :=
  ⟨by decide,
   claim_c9_done_never_an_event toyParse toyEf
     (StreamInput.stream [strL "data: TH\n"] StreamEnd.close) "thought" (by decide)⟩

/-- C10: when the transport closes while the buffer still holds a final
line with no terminating newline, that residual text — well-formed frame
or not — is never parsed and changes nothing: the run equals the run
without it. -/
theorem claim_c10_residual_dropped {α : Type} (parse : List Char → Option α)
    (ef : α → Option String) (text r : List Char) (h : '\n' ∉ r) :
    streamProcure parse ef (StreamInput.stream [text ++ r] StreamEnd.close)
      = streamProcure parse ef (StreamInput.stream [text] StreamEnd.close) := by
  rw [streamProcure_stream, streamProcure_stream]
  have h2 : '\n' ∉ (splitBuffer text).2 ++ r := by
    intro hmem
    rcases List.mem_append.mp hmem with hA | hB
    · exact splitBuffer_res_noNL text hA
    · exact h hB
  have hsb := splitBuffer_append text r
  rw [splitBuffer_noNL _ h2] at hsb
  simp only [List.append_nil] at hsb
  simp [runOnce, hsb]

/-- Witness for C10: a well-formed `done` frame lacking its newline is
dropped, so the run equals the run without the dangling frame. -/
theorem claim_c10_witness :
    streamProcure toyParse toyEf
        (StreamInput.stream [strL "data: TH\n" ++ strL "data: DONE"] StreamEnd.close)
      = streamProcure toyParse toyEf
          (StreamInput.stream [strL "data: TH\n"] StreamEnd.close) :=
  claim_c10_residual_dropped toyParse toyEf (strL "data: TH\n") (strL "data: DONE")
    (by decide)
